import Mathlib

/-!
Shallow embedding of `src/pydantic_json_patch/models.py`: the RFC 6901
JSON-Pointer codec, the six RFC 6902 operation models, and the `JsonPatch`
document, together with proofs of their specified properties.

Strings are modelled as `List Char`; Python wire values as an inductive
`Json` type.
-/

namespace PyJsonPatch

/-- One string (pointer, segment, field name, …), as a list of characters. -/
abbrev Str := List Char

/-- Python `s.replace(c, rep)` for a single-character pattern `c`:
every occurrence of `c` is replaced by `rep`, left to right. -/
def replaceChar (c : Char) (rep : Str) : Str → Str
  | [] => []
  | x :: rest => (if x = c then rep else [x]) ++ replaceChar c rep rest

/-- Python `s.replace(ab, rep)` for a two-character pattern `[a, b]`:
occurrences are replaced left to right, non-overlapping. -/
def replace2 (a b : Char) (rep : Str) : Str → Str
  | [] => []
  | [x] => [x]
  | x :: y :: rest =>
    if x = a ∧ y = b then rep ++ replace2 a b rep rest
    else x :: replace2 a b rep (y :: rest)

/-- Source `_BaseOp._encode_token`: `token.replace("~", "~0").replace("/", "~1")` —
first every `~` becomes `~0`, then every `/` becomes `~1`. -/
def encode_token (t : Str) : Str :=
  replaceChar '/' ['~', '1'] (replaceChar '~' ['~', '0'] t)

/-- Source `_BaseOp._decode_token`: `token.replace("~1", "/").replace("~0", "~")` —
first every `~1` becomes `/`, then every `~0` becomes `~`. -/
def decode_token (t : Str) : Str :=
  replace2 '~' '0' ['~'] (replace2 '~' '1' ['/'] t)

/-- Python `s.split("/")`: always one more piece than separators;
`"".split("/") == [""]`. -/
def splitSlash : Str → List Str
  | [] => [[]]
  | c :: rest =>
    if c = '/' then [] :: splitSlash rest
    else
      match splitSlash rest with
      | [] => [[c]]
      | piece :: pieces => (c :: piece) :: pieces

/-- Python `"/".join(pieces)`. -/
def joinSlash : List Str → Str
  | [] => []
  | [p] => p
  | p :: rest => p ++ '/' :: joinSlash rest

/-- Source `_BaseOp._dump_pointer` on a raw segment sequence:
`"/".join(["", *(encode_token(token) for token in pointer)])`. -/
def dump_pointer (segs : List Str) : Str :=
  joinSlash ([] :: segs.map encode_token)

/-- Source `_BaseOp._load_pointer`:
`tuple(decode_token(token) for token in pointer.split("/")[1:])`. -/
def load_pointer (p : Str) : List Str :=
  ((splitSlash p).drop 1).map decode_token

/-- Segment body of the pointer regex: `(?:[^/~]|~[01])*`. -/
def validSegment : Str → Bool
  | [] => true
  | '~' :: '0' :: rest => validSegment rest
  | '~' :: '1' :: rest => validSegment rest
  | c :: rest => !(c = '/' || c = '~') && validSegment rest

/-- Validation pattern `_JSON_POINTER = ^(?:/(?:[^/~]|~[01])*)*$`:
the whole string is zero or more groups, each a `/` followed by a segment
body.  Equivalently: splitting the string on `/` yields an empty first
component (the string is empty or starts with `/`; every later `/` opens a
new group) followed by components each matching the segment body — which is
the formulation used here. -/
def validPointer (p : Str) : Bool :=
  match splitSlash p with
  | first :: segs => first.isEmpty && segs.all validSegment
  | [] => false

/-! ### Codec lemmas -/

theorem validSegment_no_slash (s : Str) (h : validSegment s = true) : '/' ∉ s := by
  induction s using validSegment.induct with
  | case4 c rest h1 h2 ih =>
    simp only [validSegment, Bool.and_eq_true, Bool.not_eq_true', Bool.or_eq_false_iff,
      decide_eq_false_iff_not] at h
    simp only [List.mem_cons, not_or]
    exact ⟨fun hc => h.1.1 hc.symm, ih h.2⟩
  | _ => simp_all [validSegment]

theorem replaceChar_append (c : Char) (rep : Str) (l1 l2 : Str) :
    replaceChar c rep (l1 ++ l2) = replaceChar c rep l1 ++ replaceChar c rep l2 := by
  induction l1 with
  | nil => rfl
  | cons x rest ih => simp [replaceChar, ih]

theorem replace2_cons_ne (a b : Char) (rep : Str) (x : Char) (l : Str) (hx : x ≠ a) :
    replace2 a b rep (x :: l) = x :: replace2 a b rep l := by
  cases l with
  | nil => rfl
  | cons y rest => simp [replace2, hx]

theorem replace2_cons2_ne (a b : Char) (rep : Str) (x y : Char) (l : Str) (hy : y ≠ b) :
    replace2 a b rep (x :: y :: l) = x :: replace2 a b rep (y :: l) := by
  simp [replace2, hy]

theorem replace2_match (a b : Char) (rep : Str) (l : Str) :
    replace2 a b rep (a :: b :: l) = rep ++ replace2 a b rep l := by
  simp [replace2]

theorem encode_token_nil : encode_token [] = [] := rfl

theorem encode_token_tilde (t : Str) :
    encode_token ('~' :: t) = '~' :: '0' :: encode_token t := by
  simp [encode_token, replaceChar, replaceChar_append]

theorem encode_token_slash (t : Str) :
    encode_token ('/' :: t) = '~' :: '1' :: encode_token t := by
  simp [encode_token, replaceChar, replaceChar_append]

theorem encode_token_other (c : Char) (t : Str) (h0 : c ≠ '~') (h1 : c ≠ '/') :
    encode_token (c :: t) = c :: encode_token t := by
  simp [encode_token, replaceChar, replaceChar_append, h0, h1]

theorem decode_token_nil : decode_token [] = [] := rfl

theorem decode_token_tilde0 (s : Str) :
    decode_token ('~' :: '0' :: s) = '~' :: decode_token s := by
  unfold decode_token
  rw [replace2_cons2_ne '~' '1' ['/'] '~' '0' s (by decide),
    replace2_cons_ne '~' '1' ['/'] '0' s (by decide),
    replace2_match '~' '0' ['~'] (replace2 '~' '1' ['/'] s)]
  rfl

theorem decode_token_tilde1 (s : Str) :
    decode_token ('~' :: '1' :: s) = '/' :: decode_token s := by
  unfold decode_token
  rw [replace2_match '~' '1' ['/'] s, List.singleton_append,
    replace2_cons_ne '~' '0' ['~'] '/' (replace2 '~' '1' ['/'] s) (by decide)]

theorem decode_token_cons_ne (c : Char) (s : Str) (hc : c ≠ '~') :
    decode_token (c :: s) = c :: decode_token s := by
  unfold decode_token
  rw [replace2_cons_ne '~' '1' ['/'] c s hc,
    replace2_cons_ne '~' '0' ['~'] c (replace2 '~' '1' ['/'] s) hc]

/-- Decoding inverts encoding on every token. -/
theorem decode_encode (t : Str) : decode_token (encode_token t) = t := by
  induction t with
  | nil => rfl
  | cons c rest ih =>
    by_cases h0 : c = '~'
    · subst h0
      rw [encode_token_tilde, decode_token_tilde0, ih]
    · by_cases h1 : c = '/'
      · subst h1
        rw [encode_token_slash, decode_token_tilde1, ih]
      · rw [encode_token_other c rest h0 h1, decode_token_cons_ne c _ h0, ih]

theorem encode_token_no_slash (t : Str) : '/' ∉ encode_token t := by
  induction t with
  | nil => simp [encode_token_nil]
  | cons c rest ih =>
    by_cases h0 : c = '~'
    · subst h0; rw [encode_token_tilde]; simp_all
    · by_cases h1 : c = '/'
      · subst h1; rw [encode_token_slash]; simp_all
      · rw [encode_token_other c rest h0 h1]; simp_all [Ne.symm h1]

/-- Encoding inverts decoding on every token of the segment grammar. -/
theorem encode_decode_valid (s : Str) (h : validSegment s = true) :
    encode_token (decode_token s) = s := by
  induction s using validSegment.induct with
  | case1 => rfl
  | case2 rest ih =>
    simp only [validSegment] at h
    rw [decode_token_tilde0, encode_token_tilde, ih h]
  | case3 rest ih =>
    simp only [validSegment] at h
    rw [decode_token_tilde1, encode_token_slash, ih h]
  | case4 c rest h1 h2 ih =>
    simp only [validSegment, Bool.and_eq_true, Bool.not_eq_true', Bool.or_eq_false_iff,
      decide_eq_false_iff_not] at h
    obtain ⟨⟨hs, ht⟩, hrest⟩ := h
    rw [decode_token_cons_ne c rest ht, encode_token_other c _ ht hs, ih hrest]

theorem splitSlash_ne_nil (p : Str) : splitSlash p ≠ [] := by
  cases p with
  | nil => simp [splitSlash]
  | cons c rest =>
    simp only [splitSlash]
    split
    · simp
    · split <;> simp

theorem splitSlash_no_slash (p : Str) (h : '/' ∉ p) : splitSlash p = [p] := by
  induction p with
  | nil => rfl
  | cons c rest ih =>
    simp only [List.mem_cons, not_or] at h
    have hc : c ≠ '/' := fun hc => h.1 hc.symm
    simp [splitSlash, hc, ih h.2]

theorem splitSlash_append (p t : Str) (h : '/' ∉ p) :
    splitSlash (p ++ '/' :: t) = p :: splitSlash t := by
  induction p with
  | nil => simp [splitSlash]
  | cons c rest ih =>
    simp only [List.mem_cons, not_or] at h
    have hc : c ≠ '/' := fun hc => h.1 hc.symm
    simp [splitSlash, hc, ih h.2]

theorem joinSlash_cons_cons (p q : Str) (rest : List Str) :
    joinSlash (p :: q :: rest) = p ++ '/' :: joinSlash (q :: rest) := rfl

/-- Joining undoes splitting, unconditionally. -/
theorem joinSlash_splitSlash (p : Str) : joinSlash (splitSlash p) = p := by
  induction p with
  | nil => rfl
  | cons c rest ih =>
    by_cases hc : c = '/'
    · subst hc
      cases hsp : splitSlash rest with
      | nil => exact absurd hsp (splitSlash_ne_nil rest)
      | cons s ss =>
        rw [hsp] at ih
        simp only [splitSlash, if_pos rfl, if_true, hsp, joinSlash_cons_cons,
          List.nil_append, ih]
    · cases hsp : splitSlash rest with
      | nil => exact absurd hsp (splitSlash_ne_nil rest)
      | cons piece pieces =>
        rw [hsp] at ih
        cases pieces with
        | nil =>
          simp only [joinSlash] at ih
          simp [splitSlash, hc, hsp, joinSlash, ih]
        | cons q qs =>
          rw [joinSlash_cons_cons] at ih
          simp only [splitSlash, if_neg hc, hsp, joinSlash_cons_cons, List.cons_append]
          rw [ih]

/-- Splitting undoes joining when no piece contains the separator. -/
theorem splitSlash_joinSlash (pieces : List Str) (hne : pieces ≠ [])
    (h : ∀ q ∈ pieces, '/' ∉ q) : splitSlash (joinSlash pieces) = pieces := by
  induction pieces with
  | nil => exact absurd rfl hne
  | cons p rest ih =>
    cases rest with
    | nil =>
      simp only [joinSlash]
      exact splitSlash_no_slash p (h p (List.mem_cons_self p []))
    | cons q qs =>
      rw [joinSlash_cons_cons,
        splitSlash_append p _ (h p (List.mem_cons_self p (q :: qs))),
        ih (by simp) (fun r hr => h r (List.mem_cons_of_mem p hr))]

theorem validPointer_elim (p : Str) (h : validPointer p = true) :
    ∃ segs, splitSlash p = [] :: segs ∧ ∀ s ∈ segs, validSegment s = true := by
  unfold validPointer at h
  cases hsp : splitSlash p with
  | nil => rw [hsp] at h; simp at h
  | cons first segs =>
    rw [hsp] at h
    simp only [Bool.and_eq_true, List.all_eq_true, List.isEmpty_iff] at h
    exact ⟨segs, by rw [h.1], h.2⟩

/-- First half of the round trip: `_load_pointer ∘ _dump_pointer = id`
on raw segment sequences. -/
theorem load_pointer_dump_pointer (segs : List Str) :
    load_pointer (dump_pointer segs) = segs := by
  unfold load_pointer dump_pointer
  rw [splitSlash_joinSlash ([] :: segs.map encode_token) (by simp) ?hns]
  case hns =>
    intro q hq
    rcases List.mem_cons.mp hq with hq | hq
    · subst hq; simp
    · obtain ⟨s, _, rfl⟩ := List.mem_map.mp hq
      exact encode_token_no_slash s
  simp only [List.drop_succ_cons, List.drop_zero, List.map_map]
  have hmap : List.map (decode_token ∘ encode_token) segs = List.map id segs :=
    List.map_congr_left (fun s _ => decode_encode s)
  rw [hmap, List.map_id]

/-- Second half of the round trip: `_dump_pointer ∘ _load_pointer = id`
on strings accepted by the validation pattern. -/
theorem dump_pointer_load_pointer (p : Str) (h : validPointer p = true) :
    dump_pointer (load_pointer p) = p := by
  obtain ⟨segs, hsp, hvalid⟩ := validPointer_elim p h
  unfold load_pointer dump_pointer
  rw [hsp]
  simp only [List.drop_succ_cons, List.drop_zero, List.map_map]
  have hmap : List.map (encode_token ∘ decode_token) segs = List.map id segs :=
    List.map_congr_left (fun s hs => encode_decode_valid s (hvalid s hs))
  rw [hmap, List.map_id, ← hsp, joinSlash_splitSlash]

/-! ### JSON values and the operation model -/

/-- JSON values as delivered to / produced by the models (the external
representation fed to `model_validate` and produced by serialization). -/
inductive Json where
  | null
  | bool (b : Bool)
  | num (n : Int)
  | str (s : Str)
  | arr (elements : List Json)
  | obj (members : List (Str × Json))

/-- The discriminated union `Operation = AddOp | CopyOp | MoveOp | RemoveOp |
ReplaceOp | TestOp` (`Discriminator("op")`): each variant carries `path`,
`move`/`copy` also carry `from` (field `from_`, wire name `from`), and
`add`/`replace`/`test` also carry `value`. -/
inductive Operation where
  | add (path : Str) (value : Json)
  | copy (path from_ : Str)
  | move (path from_ : Str)
  | remove (path : Str)
  | replace (path : Str) (value : Json)
  | test (path : Str) (value : Json)

/-- The `path` field common to all six variants. -/
def Operation.path : Operation → Str
  | .add p _ => p
  | .copy p _ => p
  | .move p _ => p
  | .remove p => p
  | .replace p _ => p
  | .test p _ => p

/-- The `from_` field of `move`/`copy` (absent on the other variants). -/
def Operation.from_ : Operation → Option Str
  | .copy _ f => some f
  | .move _ f => some f
  | _ => none

/-- Source `_BaseOp.path_tokens`: the decoded tokens of the `path` pointer.  The
Python accessor is a `cached_property` over the frozen `path` field, so it is
a pure function of the operation. -/
def Operation.path_tokens (o : Operation) : List Str :=
  load_pointer o.path

/-- Source `_FromOp.from_tokens`: the decoded tokens of the `from` pointer, for the
variants that have one. -/
def Operation.from_tokens (o : Operation) : Option (List Str) :=
  o.from_.map load_pointer

/-- Construction well-formedness: every pointer-valued field passed pydantic's
`pattern=_JSON_POINTER` check.  Every successfully constructed operation
satisfies this. -/
def Operation.wf : Operation → Bool
  | .add p _ => validPointer p
  | .copy p f => validPointer p && validPointer f
  | .move p f => validPointer p && validPointer f
  | .remove p => validPointer p
  | .replace p _ => validPointer p
  | .test p _ => validPointer p

/-- Serialize one operation to its wire representation: a JSON object with
the discriminant under `"op"`, the pointer under `"path"`, and `"from"` /
`"value"` as the variant requires, in field-definition order.  The `from_`
field is emitted under its wire alias `"from"` (the serialization-boundary
rename of `Field(alias="from")`). -/
def serializeOp : Operation → Json
  | .add p v =>
    .obj [("op".toList, .str ("add".toList)), ("path".toList, .str p),
      ("value".toList, v)]
  | .copy p f =>
    .obj [("op".toList, .str ("copy".toList)), ("path".toList, .str p),
      ("from".toList, .str f)]
  | .move p f =>
    .obj [("op".toList, .str ("move".toList)), ("path".toList, .str p),
      ("from".toList, .str f)]
  | .remove p =>
    .obj [("op".toList, .str ("remove".toList)), ("path".toList, .str p)]
  | .replace p v =>
    .obj [("op".toList, .str ("replace".toList)), ("path".toList, .str p),
      ("value".toList, v)]
  | .test p v =>
    .obj [("op".toList, .str ("test".toList)), ("path".toList, .str p),
      ("value".toList, v)]

/-- The parse-time error taxonomy: unrecognized discriminant
(`UnknownOperationError`), structural/missing-field failure
(`SchemaValidationError`), and a pointer field failing the grammar
(`MalformedPointerError`). -/
inductive ParseError where
  | unknownOperation (tag : Json)
  | schemaValidation (field : Str)
  | malformedPointer (field : Str) (value : Str)

/-- Look a key up in a JSON object's member list. -/
def lookupMember (key : Str) : List (Str × Json) → Option Json
  | [] => none
  | (k, v) :: rest => if k = key then some v else lookupMember key rest

/-- Validate one required pointer-valued field (`str` + `pattern=_JSON_POINTER`):
missing or non-string fails schema validation; a string failing the pattern
fails pointer validation. -/
def parsePointerField (field : Str) (members : List (Str × Json)) :
    Except ParseError Str :=
  match lookupMember field members with
  | none => .error (.schemaValidation field)
  | some (.str s) => if validPointer s then .ok s else .error (.malformedPointer field s)
  | some _ => .error (.schemaValidation field)

/-- Validate the required `value` field of `add`/`replace`/`test` (any JSON
value, but the member must be present). -/
def parseValueField (members : List (Str × Json)) : Except ParseError Json :=
  match lookupMember ("value".toList) members with
  | none => .error (.schemaValidation ("value".toList))
  | some v => .ok v

/-- Parse one operation from an object's members: the `Discriminator("op")`
dispatch selects the variant by the `op` member; an unrecognized tag fails
with `unknownOperation`; the selected variant then validates exactly its own
fields, ignoring all other members (pydantic's default `extra="ignore"`,
per RFC 6902 §3). -/
def parseFields (members : List (Str × Json)) : Except ParseError Operation :=
  match lookupMember ("op".toList) members with
  | none => .error (.schemaValidation ("op".toList))
  | some (.str tag) =>
    if tag = "add".toList then
      match parsePointerField ("path".toList) members, parseValueField members with
      | .error e, _ => .error e
      | .ok _, .error e => .error e
      | .ok p, .ok v => .ok (.add p v)
    else if tag = "copy".toList then
      match parsePointerField ("path".toList) members,
          parsePointerField ("from".toList) members with
      | .error e, _ => .error e
      | .ok _, .error e => .error e
      | .ok p, .ok f => .ok (.copy p f)
    else if tag = "move".toList then
      match parsePointerField ("path".toList) members,
          parsePointerField ("from".toList) members with
      | .error e, _ => .error e
      | .ok _, .error e => .error e
      | .ok p, .ok f => .ok (.move p f)
    else if tag = "remove".toList then
      match parsePointerField ("path".toList) members with
      | .error e => .error e
      | .ok p => .ok (.remove p)
    else if tag = "replace".toList then
      match parsePointerField ("path".toList) members, parseValueField members with
      | .error e, _ => .error e
      | .ok _, .error e => .error e
      | .ok p, .ok v => .ok (.replace p v)
    else if tag = "test".toList then
      match parsePointerField ("path".toList) members, parseValueField members with
      | .error e, _ => .error e
      | .ok _, .error e => .error e
      | .ok p, .ok v => .ok (.test p v)
    else .error (.unknownOperation (.str tag))
  | some tag => .error (.unknownOperation tag)

/-- Parse one operation from its external representation: the input must be a
JSON object. -/
def parseOperation : Json → Except ParseError Operation
  | .obj members => parseFields members
  | _ => .error (.schemaValidation [])

/-- Source `JsonPatch` (`RootModel[Sequence[Operation]]`): an ordered, immutable
sequence of operations. -/
structure JsonPatch where
  root : List Operation

/-- Serialize a patch document: the JSON array of each operation's serialized
form, in order. -/
def serializePatch (d : JsonPatch) : Json :=
  .arr (d.root.map serializeOp)

/-- Parse each element of a patch document in order, propagating the first
element's failure. -/
def parseOps : List Json → Except ParseError (List Operation)
  | [] => .ok []
  | j :: rest =>
    match parseOperation j, parseOps rest with
    | .error e, _ => .error e
    | .ok _, .error e => .error e
    | .ok o, .ok os => .ok (o :: os)

/-- Parse a patch document from its external representation: the input must
be a JSON array, each element an operation. -/
def parsePatchDoc (j : Json) : Except ParseError JsonPatch :=
  match j with
  | .arr elements =>
    match parseOps elements with
    | .ok ops => .ok ⟨ops⟩
    | .error e => .error e
  | _ => .error (.schemaValidation [])

/-! ### Immutability model -/

/-- Configuration bit `frozen=True` of `_BaseOp.model_config =
ConfigDict(frozen=True, model_title_generator=...)` (models.py 33–36),
inherited by all six operation models. -/
def BaseOp_config_frozen : Bool := true

/-- Configuration bit `frozen=True` of `JsonPatch.model_config =
ConfigDict(frozen=True)` (models.py 216). -/
def JsonPatch_config_frozen : Bool := true

/-- Fact recorded by `JsonPatch._coerce_seq_to_tuple` (models.py 218–223):
the root sequence is normalised to a tuple before validation, so the stored
root is an immutable tuple. -/
def JsonPatch_root_is_tuple : Bool := true

/-- Errors raised by mutation attempts. -/
inductive MutationError where
  | frozenInstance
  | tupleItemAssignment

/-- Replace a named field's value on an operation, where the field exists on
the variant and the value has the field's shape; otherwise leave the
operation unchanged.  Used to model what assignment would do were the models
not frozen. -/
def Operation.setField (o : Operation) (field : Str) (v : Json) : Operation :=
  if field = "path".toList then
    match v with
    | .str s =>
      match o with
      | .add _ w => .add s w
      | .copy _ f => .copy s f
      | .move _ f => .move s f
      | .remove _ => .remove s
      | .replace _ w => .replace s w
      | .test _ w => .test s w
    | _ => o
  else if field = "from".toList then
    match v, o with
    | .str s, .copy p _ => .copy p s
    | .str s, .move p _ => .move p s
    | _, _ => o
  else if field = "value".toList then
    match o with
    | .add p _ => .add p v
    | .replace p _ => .replace p v
    | .test p _ => .test p v
    | _ => o
  else o

/-- Modelled from the spec: pydantic's attribute-assignment runtime (the
pydantic library itself is not under src/) — assigning to a field of a model
whose config has `frozen=True` fails with an immutability violation at the
point of mutation and the instance is left unchanged; on a non-frozen model
the assignment would replace the field. -/
def Operation.setattr (o : Operation) (field : Str) (v : Json) :
    Except MutationError Operation :=
  if BaseOp_config_frozen then .error .frozenInstance
  else .ok (o.setField field v)

/-- Modelled from the spec: assigning to the `root` attribute of the frozen
`JsonPatch` model fails the same way. -/
def JsonPatch.setattr_root (_d : JsonPatch) (newRoot : List Operation) :
    Except MutationError JsonPatch :=
  if JsonPatch_config_frozen then .error .frozenInstance
  else .ok ⟨newRoot⟩

/-- Modelled from the spec: Python item assignment `root[i] = x` on a tuple
raises `TypeError`; the stored root is always a tuple (see
`JsonPatch_root_is_tuple`).  On a mutable list it would replace the
element. -/
def JsonPatch.setitem_root (d : JsonPatch) (i : Nat) (o : Operation) :
    Except MutationError JsonPatch :=
  if JsonPatch_root_is_tuple then .error .tupleItemAssignment
  else .ok ⟨d.root.set i o⟩

/-! ### Model lemmas -/

/-- Parsing the serialized form of a well-formed operation returns the
operation. -/
theorem parse_serialize (o : Operation) (h : o.wf = true) :
    parseOperation (serializeOp o) = .ok o := by
  cases o with
  | add p v =>
    simp only [Operation.wf] at h
    simp [serializeOp, parseOperation, parseFields, parsePointerField, parseValueField,
      lookupMember, h]
  | copy p f =>
    simp only [Operation.wf, Bool.and_eq_true] at h
    simp [serializeOp, parseOperation, parseFields, parsePointerField, parseValueField,
      lookupMember, h.1, h.2]
  | move p f =>
    simp only [Operation.wf, Bool.and_eq_true] at h
    simp [serializeOp, parseOperation, parseFields, parsePointerField, parseValueField,
      lookupMember, h.1, h.2]
  | remove p =>
    simp only [Operation.wf] at h
    simp [serializeOp, parseOperation, parseFields, parsePointerField, lookupMember, h]
  | replace p v =>
    simp only [Operation.wf] at h
    simp [serializeOp, parseOperation, parseFields, parsePointerField, parseValueField,
      lookupMember, h]
  | test p v =>
    simp only [Operation.wf] at h
    simp [serializeOp, parseOperation, parseFields, parsePointerField, parseValueField,
      lookupMember, h]

/-- Element-wise round trip for the document body. -/
theorem parseOps_map_serialize (ops : List Operation) (h : ops.all Operation.wf = true) :
    parseOps (ops.map serializeOp) = .ok ops := by
  induction ops with
  | nil => rfl
  | cons o rest ih =>
    simp only [List.all_cons, Bool.and_eq_true] at h
    simp only [List.map_cons, parseOps, parse_serialize o h.1, ih h.2]

/-- Ignoring a key that is none of the four schema fields: appending such a
member to an object leaves every relevant lookup unchanged. -/
theorem lookupMember_append_ne (key k : Str) (v : Json) (members : List (Str × Json))
    (h : k ≠ key) : lookupMember key (members ++ [(k, v)]) = lookupMember key members := by
  induction members with
  | nil => simp [lookupMember, h]
  | cons kv rest ih =>
    obtain ⟨k', v'⟩ := kv
    simp only [List.cons_append, lookupMember, List.append_eq, ih]

theorem parsePointerField_append_ne (field k : Str) (v : Json)
    (members : List (Str × Json)) (h : k ≠ field) :
    parsePointerField field (members ++ [(k, v)]) = parsePointerField field members := by
  unfold parsePointerField
  rw [lookupMember_append_ne field k v members h]

theorem parseValueField_append_ne (k : Str) (v : Json) (members : List (Str × Json))
    (h : k ≠ "value".toList) :
    parseValueField (members ++ [(k, v)]) = parseValueField members := by
  unfold parseValueField
  rw [lookupMember_append_ne ("value".toList) k v members h]

/-- Appending a member whose key is outside every variant's schema does not
change the parse result. -/
theorem parseFields_append_ne (members : List (Str × Json)) (k : Str) (v : Json)
    (hop : k ≠ "op".toList) (hpath : k ≠ "path".toList)
    (hfrom : k ≠ "from".toList) (hvalue : k ≠ "value".toList) :
    parseFields (members ++ [(k, v)]) = parseFields members := by
  unfold parseFields
  simp only [lookupMember_append_ne _ _ _ _ hop,
    parsePointerField_append_ne _ _ _ _ hpath,
    parsePointerField_append_ne _ _ _ _ hfrom,
    parseValueField_append_ne _ _ _ hvalue]

/-! ### The claims -/

/-- C1: Pointer codec round trip — decoding the encoding of any raw segment
sequence returns the sequence, and re-encoding the decoded segments of any
string matching the pointer grammar reproduces the string byte-identically. -/
theorem pointer_codec_round_trip :
    (∀ segs : List Str, load_pointer (dump_pointer segs) = segs) ∧
    (∀ p : Str, validPointer p = true → dump_pointer (load_pointer p) = p) :=
  ⟨load_pointer_dump_pointer, dump_pointer_load_pointer⟩

theorem pointer_codec_round_trip_witness :
    load_pointer (dump_pointer ["a~b".toList, "c/d".toList]) = ["a~b".toList, "c/d".toList] ∧
    validPointer ("/a~0b/c~1d".toList) = true ∧
    dump_pointer (load_pointer ("/a~0b/c~1d".toList)) = "/a~0b/c~1d".toList :=
  ⟨pointer_codec_round_trip.1 _, by decide, pointer_codec_round_trip.2 _ (by decide)⟩

/-- C2: Canonical serialization round trip — parsing the serialized external
representation of any (well-formed, i.e. constructible) operation yields the
operation back; serializing a patch document yields the ordered array of each
operation's serialized form; and parsing that array yields the document,
element for element in the original order. -/
theorem canonical_round_trip :
    (∀ o : Operation, o.wf = true → parseOperation (serializeOp o) = .ok o) ∧
    (∀ d : JsonPatch, serializePatch d = .arr (d.root.map serializeOp)) ∧
    (∀ d : JsonPatch, d.root.all Operation.wf = true →
      parsePatchDoc (serializePatch d) = .ok d) := by
  refine ⟨parse_serialize, fun _ => rfl, fun d h => ?_⟩
  obtain ⟨root⟩ := d
  simp only [serializePatch, parsePatchDoc, parseOps_map_serialize root h]

theorem canonical_round_trip_witness :
    parseOperation (serializeOp (Operation.move ("/a/b/d".toList) ("/a/b/c".toList)))
      = .ok (Operation.move ("/a/b/d".toList) ("/a/b/c".toList)) ∧
    parsePatchDoc (serializePatch ⟨[Operation.add ("/foo".toList) (Json.num 1),
      Operation.remove ("/bar".toList)]⟩)
      = .ok ⟨[Operation.add ("/foo".toList) (Json.num 1),
        Operation.remove ("/bar".toList)]⟩ :=
  ⟨canonical_round_trip.1 _ (by decide), canonical_round_trip.2.2 _ (by decide)⟩

/-- C3 (evaluation of the code at the claim's inputs): the deployed pattern
`^(?:/(?:[^/~]|~[01])*)*$` rejects "foo/bar" (no leading slash) but accepts
"//foo/bar" (empty segment) and "/foo/bar/" (trailing slash), contradicting
the repository's own tests, which expect a validation error for all three. -/
theorem grammar_rejection_eval :
    validPointer ("foo/bar".toList) = false ∧
    validPointer ("//foo/bar".toList) = true ∧
    validPointer ("/foo/bar/".toList) = true := by decide

/-- C4: Escaping algorithm and order — encoding replaces every `~` with `~0`
first and then every `/` with `~1`; decoding replaces every `~1` with `/`
first and then every `~0` with `~`; and the specified concrete examples. -/
theorem escaping_order_and_examples :
    (∀ t : Str, encode_token t = replaceChar '/' ['~', '1'] (replaceChar '~' ['~', '0'] t)) ∧
    (∀ t : Str, decode_token t = replace2 '~' '0' ['~'] (replace2 '~' '1' ['/'] t)) ∧
    dump_pointer ["a~b".toList, "c/d".toList] = "/a~0b/c~1d".toList ∧
    load_pointer ("/a~0b/c~1d".toList) = ["a~b".toList, "c/d".toList] :=
  ⟨fun _ => rfl, fun _ => rfl, by decide, by decide⟩

/-- C5: Parse error taxonomy — a discriminant outside the six recognized tags
fails with the unknown-operation error (in general, and at the example
`{"op": "bogus", "path": "/a"}`), and a representation missing a required
field of the selected variant fails with a schema-validation error (at the
example `{"op": "copy", "path": "/a"}`, missing `from`); both produce errors,
never values. -/
theorem parse_error_taxonomy :
    (∀ (members : List (Str × Json)) (tag : Str),
      lookupMember ("op".toList) members = some (.str tag) →
      tag ≠ "add".toList → tag ≠ "copy".toList → tag ≠ "move".toList →
      tag ≠ "remove".toList → tag ≠ "replace".toList → tag ≠ "test".toList →
      parseOperation (.obj members) = .error (.unknownOperation (.str tag))) ∧
    parseOperation (.obj [("op".toList, .str ("bogus".toList)),
      ("path".toList, .str ("/a".toList))])
      = .error (.unknownOperation (.str ("bogus".toList))) ∧
    parseOperation (.obj [("op".toList, .str ("copy".toList)),
      ("path".toList, .str ("/a".toList))])
      = .error (.schemaValidation ("from".toList)) := by
  refine ⟨?_, by rfl, by rfl⟩
  intro members tag hlook h1 h2 h3 h4 h5 h6
  simp only [parseOperation, parseFields, hlook, if_neg h1, if_neg h2, if_neg h3,
    if_neg h4, if_neg h5, if_neg h6]

theorem parse_error_taxonomy_witness :
    parseOperation (.obj [("op".toList, Json.str ("zap".toList))])
      = .error (.unknownOperation (.str ("zap".toList))) :=
  parse_error_taxonomy.1 [("op".toList, Json.str ("zap".toList))] ("zap".toList)
    rfl (by decide) (by decide) (by decide) (by decide) (by decide) (by decide)

/-- C6: Field pruning — members outside the selected variant's schema never
change the parse result (appending any such member is invisible); the
specified example with an `extra` member parses successfully; and the
result's serialized form carries exactly the variant's own fields, with no
extra member. -/
theorem field_pruning :
    (∀ (members : List (Str × Json)) (k : Str) (v : Json),
      k ≠ "op".toList → k ≠ "path".toList → k ≠ "from".toList → k ≠ "value".toList →
      parseOperation (.obj (members ++ [(k, v)])) = parseOperation (.obj members)) ∧
    parseOperation (.obj [("op".toList, .str ("test".toList)),
      ("path".toList, .str ("/a/b".toList)), ("value".toList, .num 1),
      ("extra".toList, .str ("ignored".toList))])
      = .ok (.test ("/a/b".toList) (.num 1)) ∧
    serializeOp (.test ("/a/b".toList) (.num 1))
      = .obj [("op".toList, .str ("test".toList)),
        ("path".toList, .str ("/a/b".toList)), ("value".toList, .num 1)] := by
  refine ⟨?_, by rfl, by rfl⟩
  intro members k v hop hpath hfrom hvalue
  simp only [parseOperation]
  exact parseFields_append_ne members k v hop hpath hfrom hvalue

theorem field_pruning_witness :
    parseOperation (.obj ([("op".toList, Json.str ("remove".toList)),
      ("path".toList, Json.str ("/x".toList))] ++ [("extra".toList, Json.null)]))
      = parseOperation (.obj [("op".toList, Json.str ("remove".toList)),
        ("path".toList, Json.str ("/x".toList))]) :=
  field_pruning.1 [("op".toList, Json.str ("remove".toList)),
    ("path".toList, Json.str ("/x".toList))] ("extra".toList) Json.null
    (by decide) (by decide) (by decide) (by decide)

/-- C7: Derived token accessors agree with the codec — `path_tokens` is the
decoding of `path` and `from_tokens` is the decoding of `from` on the
variants that have one; being pure functions of the frozen fields, they give
the same value on every access, as the concrete examples illustrate. -/
theorem derived_token_accessors :
    (∀ o : Operation, o.path_tokens = load_pointer o.path) ∧
    (∀ o : Operation, o.from_tokens = o.from_.map load_pointer) ∧
    (Operation.copy ("/foo~0123~1bar".toList) ("/foo~0123~1bar".toList)).path_tokens
      = ["foo~123/bar".toList] ∧
    (Operation.copy ("/foo~0123~1bar".toList) ("/foo~0123~1bar".toList)).from_tokens
      = some ["foo~123/bar".toList] :=
  ⟨fun _ => rfl, fun _ => rfl, by decide, by decide⟩

/-- C8: Immutability — every attribute assignment on an operation, every
assignment to the document's root, and every item assignment into the
document's root tuple fails with an error at the point of mutation; no
operation on these types mutates them after construction. -/
theorem immutability :
    (∀ (o : Operation) (field : Str) (v : Json),
      o.setattr field v = .error .frozenInstance) ∧
    (∀ (d : JsonPatch) (r : List Operation),
      d.setattr_root r = .error .frozenInstance) ∧
    (∀ (d : JsonPatch) (i : Nat) (o : Operation),
      d.setitem_root i o = .error .tupleItemAssignment) :=
  ⟨fun _ _ _ => rfl, fun _ _ => rfl, fun _ _ _ => rfl⟩

/-- C9: Root pointer edge case — the empty string decodes to the empty
segment sequence and the empty segment sequence encodes to the empty
string. -/
theorem root_pointer :
    load_pointer ("".toList) = ([] : List Str) ∧ dump_pointer [] = "".toList := by
  decide

/-- C10: The implemented pointer grammar permits empty segments — every
string built of zero or more slash-prefixed (possibly empty) grammar
segments matches the validation pattern and decodes to the corresponding
token sequence; in particular "//foo" and "/foo/bar/" validate, decode to
sequences with empty tokens at the corresponding positions, and are accepted
as `path` and `from` values of parsed operations. -/
theorem empty_segments_permitted :
    (∀ segs : List Str, (∀ s ∈ segs, validSegment s = true) →
      validPointer (joinSlash ([] :: segs)) = true ∧
      load_pointer (joinSlash ([] :: segs)) = segs.map decode_token) ∧
    validPointer ("//foo".toList) = true ∧
    load_pointer ("//foo".toList) = [[], "foo".toList] ∧
    load_pointer ("/foo/bar/".toList) = ["foo".toList, "bar".toList, []] ∧
    parseOperation (.obj [("op".toList, Json.str ("remove".toList)),
      ("path".toList, Json.str ("//foo".toList))])
      = .ok (.remove ("//foo".toList)) ∧
    parseOperation (.obj [("op".toList, Json.str ("copy".toList)),
      ("path".toList, Json.str ("/a".toList)),
      ("from".toList, Json.str ("/foo/bar/".toList))])
      = .ok (.copy ("/a".toList) ("/foo/bar/".toList)) := by
  refine ⟨?_, by decide, by decide, by decide, by rfl, by rfl⟩
  intro segs h
  have hns : ∀ q ∈ ([] :: segs), '/' ∉ q := by
    intro q hq
    rcases List.mem_cons.mp hq with hq | hq
    · subst hq; simp
    · exact validSegment_no_slash q (h q hq)
  have hsp : splitSlash (joinSlash ([] :: segs)) = [] :: segs :=
    splitSlash_joinSlash _ (by simp) hns
  constructor
  · unfold validPointer
    rw [hsp]
    simp only [List.isEmpty_nil, Bool.true_and, List.all_eq_true]
    exact h
  · unfold load_pointer
    rw [hsp]
    simp

theorem empty_segments_permitted_witness :
    validPointer (joinSlash ([] :: [[], "foo".toList])) = true ∧
    load_pointer (joinSlash ([] :: [[], "foo".toList]))
      = [[], "foo".toList].map decode_token :=
  empty_segments_permitted.1 [[], "foo".toList] (by decide)

end PyJsonPatch
